import Mathlib

/-!
Verification development for the EmbedYAML library.

The development shallowly embeds the document model (`include/EmbedYAML/Node.hpp`)
and the tree/text bridge (`src/EmbedYAML.cpp`):

* `Node` mirrors the C++ `Node` class: a `kind` tag (`NodeType`) together with a
  tagged payload (`NodeVariant`).  The C++ payload is a `std::variant` over
  `std::monostate`, `std::string`, a vector of owned child nodes and a vector of
  `MapEntry{key, value}` records; the vectors become the mutually inductive
  `NodeList` and `EntryList`.  The C++ invariant that the active variant matches
  the `kind` tag is not structural here (exactly as in the source); it is the
  predicate `Node.wfB`.
* The parser of `EmbedYAML.cpp` consumes a stream of libyaml events.  The
  event producer itself is an external collaborator, so events are modelled as
  the inductive `Event` and the parser as recursive functions over `List Event`
  exactly following `parse`, `parseNodeFromEvent`, `parseSequenceEvent` and
  `parseMappingEvent`.  The C++ recursion terminates because the event stream is
  finite; the embedding makes this explicit with a fuel argument that the
  top-level `parse` instantiates from the length of its input.
* The emitter is the straightforward translation of `emitNode`, `emitScalar`,
  `emitSequence` and `emitMapping`.
-/

namespace EmbedYAML

/-- Error kinds from `include/EmbedYAML/Error.hpp`. -/
inductive EmbedYAMLErrorType where
  | ParseError
  | EmissionError
  | TypeError
  | ScalarConversionError
deriving DecidableEq

/-- `struct EmbedYAMLError { EmbedYAMLErrorType error; std::string message; }`. -/
structure EmbedYAMLError where
  error : EmbedYAMLErrorType
  message : String
deriving DecidableEq

/-- `enum class NodeType` from `Node.hpp`. -/
inductive NodeType where
  | Null
  | Scalar
  | Sequence
  | Map
deriving DecidableEq

mutual

/-- The C++ `Node`: a `NodeType` tag plus a `std::variant` payload. -/
inductive Node where
  | mk (type : NodeType) (value : NodeVariant)

/-- `NodeVariant = std::variant<NullType, ScalarType, SequenceType, MapType>`. -/
inductive NodeVariant where
  | nullValue
  | scalarValue (s : String)
  | sequenceValue (elems : NodeList)
  | mapValue (entries : EntryList)

/-- `SequenceType = std::vector<std::unique_ptr<Node>>` (ownership dropped). -/
inductive NodeList where
  | nil
  | cons (head : Node) (tail : NodeList)

/-- `MapType = std::vector<MapEntry>` with `MapEntry{key, value}` flattened. -/
inductive EntryList where
  | nil
  | cons (key : String) (val : Node) (tail : EntryList)

end

/-- The `type` field of a `Node`. -/
def Node.type : Node → NodeType
  | .mk t _ => t

/-- The `value` field of a `Node`. -/
def Node.value : Node → NodeVariant
  | .mk _ v => v

/-- `Node::isNull`. -/
def Node.isNull (n : Node) : Bool := n.type = NodeType.Null

/-- `Node::isScalar`. -/
def Node.isScalar (n : Node) : Bool := n.type = NodeType.Scalar

/-- `Node::isSequence`. -/
def Node.isSequence (n : Node) : Bool := n.type = NodeType.Sequence

/-- `Node::isMap`. -/
def Node.isMap (n : Node) : Bool := n.type = NodeType.Map

/-- `Node::getType`. -/
def Node.getType (n : Node) : NodeType := n.type

/-- The default constructor `Node()` : a Null node with monostate payload. -/
def Node.defaultNode : Node := .mk .Null .nullValue

/-- The constructor `Node(NodeType t)`: payload initialized to the type's
empty value, following the `switch` in `Node.hpp`. -/
def Node.ofType : NodeType → Node
  | .Null => .mk .Null .nullValue
  | .Scalar => .mk .Scalar (.scalarValue "")
  | .Sequence => .mk .Sequence (.sequenceValue .nil)
  | .Map => .mk .Map (.mapValue .nil)

/-- The private accessor `Node::asString` (an `std::expected` in the source),
reduced to its observable content: `some` exactly when the node is a scalar
holding a string payload. -/
def Node.asStringOpt : Node → Option String
  | .mk .Scalar (.scalarValue s) => some s
  | _ => none

/-! ### `Node::as<T>` for integral `T` (`int`)

`Node::as<int>` calls `std::from_chars(s.data(), s.data()+s.size(), result)`
and fails only when the returned error code is nonzero.  `std::from_chars` for
a signed integer type consumes an optional minus sign followed by the longest
run of decimal digits, yields `invalid_argument` when that run is empty and
`result_out_of_range` when the denoted value does not fit in the type; it does
NOT require the whole string to be consumed. -/

/-- Result codes of `std::from_chars`. -/
inductive Errc where
  | ok
  | invalid_argument
  | result_out_of_range
deriving DecidableEq

/-- Smallest value of a 32-bit `int`. -/
def intMin : Int := -(2 ^ 31)

/-- Largest value of a 32-bit `int`. -/
def intMax : Int := 2 ^ 31 - 1

/-- Numeric value of a decimal digit character, if it is one. -/
def digitVal (c : Char) : Option Nat :=
  if '0' ≤ c ∧ c ≤ '9' then some (c.toNat - '0'.toNat) else none

/-- Split a character list into its longest initial run of decimal digits
(converted to their values) and the remainder. -/
def takeDigits : List Char → List Nat × List Char
  | [] => ([], [])
  | c :: cs =>
    match digitVal c with
    | some d => let p := takeDigits cs; (d :: p.1, p.2)
    | none => ([], c :: cs)

/-- Value of a big-endian digit run. -/
def digitsToNat (ds : List Nat) : Nat := ds.foldl (fun a d => a * 10 + d) 0

/-- The optional leading minus sign consumed by `std::from_chars` for a
signed type: the sign flag and the remaining characters. -/
def signSplit : List Char → Bool × List Char
  | '-' :: t => (true, t)
  | cs => (false, cs)

/-- `std::from_chars` on the full range of a string, for `T = int`. -/
def fromCharsInt (s : String) : Except Errc Int :=
  let p := signSplit s.data
  let q := takeDigits p.2
  if q.1 = [] then .error .invalid_argument
  else
    let v : Int := (if p.1 then -1 else 1) * (digitsToNat q.1 : Int)
    if v < intMin ∨ intMax < v then .error .result_out_of_range else .ok v

/-- `Node::as<int>`: `TypeError` on a non-scalar, otherwise `from_chars` with
only the error code inspected.  (A scalar-tagged node whose payload is not a
string would throw `std::bad_variant_access` in the source; that state is
unreachable for well-formed nodes and is mapped to `TypeError` here.) -/
def Node.asInt (n : Node) : Except EmbedYAMLError Int :=
  if n.isScalar then
    match n.value with
    | .scalarValue s =>
      match fromCharsInt s with
      | .error _ => .error ⟨.ScalarConversionError, "Conversion failed"⟩
      | .ok v => .ok v
    | _ => .error ⟨.TypeError, "Node is not a Scalar"⟩
  else .error ⟨.TypeError, "Node is not a Scalar"⟩

/-! ### Map and sequence access -/

/-- Index of the first entry with the given key (`operator[]`'s linear scan). -/
def EntryList.findIdx (key : String) : EntryList → Option Nat
  | .nil => none
  | .cons k _ tl => if k = key then some 0 else (findIdx key tl).map (· + 1)

/-- Number of entries. -/
def EntryList.length : EntryList → Nat
  | .nil => 0
  | .cons _ _ tl => tl.length + 1

/-- Key of the entry at an index. -/
def EntryList.keyAt : EntryList → Nat → Option String
  | .nil, _ => none
  | .cons k _ _, 0 => some k
  | .cons _ _ tl, i + 1 => tl.keyAt i

/-- Value of the entry at an index. -/
def EntryList.valueAt : EntryList → Nat → Option Node
  | .nil, _ => none
  | .cons _ v _, 0 => some v
  | .cons _ _ tl, i + 1 => tl.valueAt i

/-- Replace the value of the entry at an index (mutation through the
reference returned by `operator[]`). -/
def EntryList.setValueAt : EntryList → Nat → Node → EntryList
  | .nil, _, _ => .nil
  | .cons k _ tl, 0, w => .cons k w tl
  | .cons k v tl, i + 1, w => .cons k v (tl.setValueAt i w)

/-- `push_back` of a new entry. -/
def EntryList.push (es : EntryList) (k : String) (v : Node) : EntryList :=
  match es with
  | .nil => .cons k v .nil
  | .cons k0 v0 tl => .cons k0 v0 (tl.push k v)

/-- `Node::operator[](const std::string&)`: scan for the first entry with the
key; if absent, append a Null entry.  A C++ reference cannot be returned from
a functional model, so the result is the (possibly updated) node together with
the index of the referenced entry.  Calling it on a node without a map payload
violates the `assert(isMap())` precondition; the node is returned unchanged. -/
def Node.mapIndex (n : Node) (key : String) : Node × Nat :=
  match n.value with
  | .mapValue es =>
    match es.findIdx key with
    | some i => (n, i)
    | none => (.mk n.type (.mapValue (es.push key (Node.ofType .Null))), es.length)
  | _ => (n, 0)

/-- First-match lookup of a key's value in a Map node (what a subsequent
`operator[]` on an existing key observes). -/
def Node.lookup (n : Node) (key : String) : Option Node :=
  match n.value with
  | .mapValue es => (es.findIdx key).bind es.valueAt
  | _ => none

/-- Write through the reference returned by `Node.mapIndex`: replace the value
of the map entry at the given index. -/
def Node.setMapValueAt (n : Node) (i : Nat) (w : Node) : Node :=
  match n with
  | .mk t (.mapValue es) => .mk t (.mapValue (es.setValueAt i w))
  | m => m

/-- Number of children of a sequence payload. -/
def NodeList.length : NodeList → Nat
  | .nil => 0
  | .cons _ tl => tl.length + 1

/-- Child at an index. -/
def NodeList.get? : NodeList → Nat → Option Node
  | .nil, _ => none
  | .cons h _, 0 => some h
  | .cons _ tl, i + 1 => tl.get? i

/-- `push_back` of a child node. -/
def NodeList.push : NodeList → Node → NodeList
  | .nil, n => .cons n .nil
  | .cons h tl, n => .cons h (tl.push n)

/-- `Node::operator[](size_t)`: the i-th child of a sequence.  Out-of-range or
wrong-kind access violates the asserts; it is modelled as `none`. -/
def Node.seqIndex (n : Node) (i : Nat) : Option Node :=
  match n.value with
  | .sequenceValue l => l.get? i
  | _ => none

/-- The values assignable through the template `Node::operator=` /
`Node::emplace_back`: an arithmetic value (`int`) or a string-convertible
value. -/
inductive AssignVal where
  | ofInt (i : Int)
  | ofString (s : String)

/-- The text stored by `operator=`: `std::to_string` for arithmetic values,
the string itself for string-convertible ones. -/
def AssignVal.textRep : AssignVal → String
  | .ofInt i => toString i
  | .ofString s => s

/-- `Node::operator=(const T&)`: unconditionally sets `type` to `Scalar` and
the payload to the text representation, discarding the previous payload. -/
def Node.assign (_n : Node) (v : AssignVal) : Node :=
  .mk .Scalar (.scalarValue v.textRep)

/-- `Node::emplace_back` with `T = Node`: move the node in as a new child.
Requires a sequence payload (`assert(isSequence())`). -/
def Node.emplaceBackNode (n : Node) (child : Node) : Node :=
  match n with
  | .mk t (.sequenceValue l) => .mk t (.sequenceValue (l.push child))
  | m => m

/-- `Node::emplace_back` with a non-`Node` value: `Node temp; temp = v;`
then push the temporary. -/
def Node.emplaceBackVal (n : Node) (v : AssignVal) : Node :=
  n.emplaceBackNode (Node.defaultNode.assign v)

/-! ### The kind/payload invariant -/

mutual

/-- The document-model invariant: the active payload variant matches the
`type` tag, recursively at every node. -/
def Node.wfB : Node → Bool
  | .mk .Null .nullValue => true
  | .mk .Scalar (.scalarValue _) => true
  | .mk .Sequence (.sequenceValue l) => NodeList.wfB l
  | .mk .Map (.mapValue es) => EntryList.wfB es
  | _ => false

/-- All children well-formed. -/
def NodeList.wfB : NodeList → Bool
  | .nil => true
  | .cons h tl => Node.wfB h && NodeList.wfB tl

/-- All entry values well-formed. -/
def EntryList.wfB : EntryList → Bool
  | .nil => true
  | .cons _ v tl => Node.wfB v && EntryList.wfB tl

end

mutual

/-- No node of the tree has kind `Null`. -/
def Node.nullFreeB : Node → Bool
  | .mk t v => (t ≠ NodeType.Null) && NodeVariant.nullFreeB v

/-- No nested node of the payload has kind `Null`. -/
def NodeVariant.nullFreeB : NodeVariant → Bool
  | .nullValue => true
  | .scalarValue _ => true
  | .sequenceValue l => NodeList.nullFreeB l
  | .mapValue es => EntryList.nullFreeB es

/-- No child has a `Null`-kind node. -/
def NodeList.nullFreeB : NodeList → Bool
  | .nil => true
  | .cons h tl => Node.nullFreeB h && NodeList.nullFreeB tl

/-- No entry value has a `Null`-kind node. -/
def EntryList.nullFreeB : EntryList → Bool
  | .nil => true
  | .cons _ v tl => Node.nullFreeB v && EntryList.nullFreeB tl

end

mutual

/-- Some node of the tree has kind `Null`. -/
def Node.containsNullB : Node → Bool
  | .mk t v => (t = NodeType.Null) || NodeVariant.containsNullB v

/-- Some nested node of the payload has kind `Null`. -/
def NodeVariant.containsNullB : NodeVariant → Bool
  | .nullValue => false
  | .scalarValue _ => false
  | .sequenceValue l => NodeList.containsNullB l
  | .mapValue es => EntryList.containsNullB es

/-- Some child contains a `Null`-kind node. -/
def NodeList.containsNullB : NodeList → Bool
  | .nil => false
  | .cons h tl => Node.containsNullB h || NodeList.containsNullB tl

/-- Some entry value contains a `Null`-kind node. -/
def EntryList.containsNullB : EntryList → Bool
  | .nil => false
  | .cons _ v tl => Node.containsNullB v || EntryList.containsNullB tl

end

/-! ### Emission (`EmbedYAML.cpp`, emitting functions) -/

/-- `EmbedYAML::indentString`: `2 * indentLevel` spaces. -/
def indentString (indentLevel : Nat) : String :=
  String.mk (List.replicate (indentLevel * 2) ' ')

mutual

/-- `EmbedYAML::emitNode`: dispatch on `getType()`.  The `Null` (and default)
case is an `EmissionError`. -/
def emitNode : Node → Nat → Except EmbedYAMLError String
  | .mk .Scalar v, _ =>
    match v with
    | .scalarValue s => .ok s
    | _ => .error ⟨.EmissionError, "Invalid scalar node"⟩
  | .mk .Sequence v, indentLevel =>
    match v with
    | .sequenceValue l => emitSeqElems l indentLevel
    | _ => .error ⟨.EmissionError, "Invalid sequence node"⟩
  | .mk .Map v, indentLevel =>
    match v with
    | .mapValue es => emitMapEntries es indentLevel
    | _ => .error ⟨.EmissionError, "Invalid mapping node"⟩
  | .mk .Null _, _ => .error ⟨.EmissionError, "Invalid node type for emission"⟩

/-- The element loop of `EmbedYAML::emitSequence`. -/
def emitSeqElems : NodeList → Nat → Except EmbedYAMLError String
  | .nil, _ => .ok ""
  | .cons e tl, indentLevel =>
    match (if e.isScalar then emitNode e 0 else emitNode e (indentLevel + 1)) with
    | .error _ => .error ⟨.EmissionError, "Failed to emit sequence element"⟩
    | .ok res =>
      match emitSeqElems tl indentLevel with
      | .error err => .error err
      | .ok out =>
        .ok ((if e.isScalar then indentString indentLevel ++ "- " ++ res ++ "\n"
              else indentString indentLevel ++ "-\n" ++ res) ++ out)

/-- The entry loop of `EmbedYAML::emitMapping`. -/
def emitMapEntries : EntryList → Nat → Except EmbedYAMLError String
  | .nil, _ => .ok ""
  | .cons k v tl, indentLevel =>
    match (if v.isScalar then emitNode v 0 else emitNode v (indentLevel + 1)) with
    | .error _ => .error ⟨.EmissionError, "Failed to emit mapping element"⟩
    | .ok res =>
      match emitMapEntries tl indentLevel with
      | .error err => .error err
      | .ok out =>
        .ok ((if v.isScalar then indentString indentLevel ++ k ++ ": " ++ res ++ "\n"
              else indentString indentLevel ++ k ++ ":\n" ++ res) ++ out)

end

/-- `EmbedYAML::emit`: emit the node at indent level 0. -/
def emit (node : Node) : Except EmbedYAMLError String := emitNode node 0

/-! ### Parsing (`EmbedYAML.cpp`, parsing functions)

The parser consumes libyaml events.  The event producer is the external lexer
(out of scope per the specification), so the input of the parser is modelled
as a `List Event`; a failing `yaml_parser_parse` call corresponds to pulling
from an exhausted list.  The C++ recursion terminates because the stream is
finite; here every recursive helper carries a fuel argument, decremented once
per call layer, and the top-level `parse` supplies fuel proportional to the
length of its input (which is always sufficient, see `need_le_toEvents`). -/

/-- The libyaml event kinds consumed by the parser. -/
inductive Event where
  | streamStart
  | streamEnd
  | docStart
  | docEnd
  | scalar (s : String)
  | seqStart
  | seqEnd
  | mapStart
  | mapEnd
deriving DecidableEq

mutual

/-- `EmbedYAML::parseNodeFromEvent`: dispatch on an already-pulled event.
The scalar case is `parseScalarEvent` (net effect: a Scalar node holding the
event's text); `seqStart`/`mapStart` enter the loops of `parseSequenceEvent` /
`parseMappingEvent`; any other event type fails. -/
def parseNodeFromEvent : Nat → Event → List Event → Option (Node × List Event)
  | 0, _, _ => none
  | _ + 1, .scalar s, rest => some (.mk .Scalar (.scalarValue s), rest)
  | f + 1, .seqStart, rest =>
    match parseSeqLoop f rest with
    | none => none
    | some (elems, rest1) => some (.mk .Sequence (.sequenceValue elems), rest1)
  | f + 1, .mapStart, rest =>
    match parseMapLoop f rest with
    | none => none
    | some (entries, rest1) => some (.mk .Map (.mapValue entries), rest1)
  | _ + 1, _, _ => none

/-- The child loop of `EmbedYAML::parseSequenceEvent`: pull an event; stop on
`seqEnd`; otherwise build a child and continue. -/
def parseSeqLoop : Nat → List Event → Option (NodeList × List Event)
  | 0, _ => none
  | _ + 1, [] => none
  | _ + 1, .seqEnd :: rest => some (.nil, rest)
  | f + 1, e :: rest =>
    match parseNodeFromEvent f e rest with
    | none => none
    | some (child, rest1) =>
      match parseSeqLoop f rest1 with
      | none => none
      | some (sibs, rest2) => some (.cons child sibs, rest2)

/-- The entry loop of `EmbedYAML::parseMappingEvent`: pull a key event; stop
on `mapEnd`; the key must resolve to a Scalar node ("only scalar keys
supported"); then build the value (`parseNode` pulls the next event) and
append the entry. -/
def parseMapLoop : Nat → List Event → Option (EntryList × List Event)
  | 0, _ => none
  | _ + 1, [] => none
  | _ + 1, .mapEnd :: rest => some (.nil, rest)
  | f + 1, e :: rest =>
    match parseNodeFromEvent f e rest with
    | none => none
    | some (keyNode, rest1) =>
      if keyNode.isScalar then
        match keyNode.asStringOpt with
        | none => none
        | some key =>
          match rest1 with
          | [] => none
          | e2 :: rest2 =>
            match parseNodeFromEvent f e2 rest2 with
            | none => none
            | some (valueNode, rest3) =>
              match parseMapLoop f rest3 with
              | none => none
              | some (entries, rest4) => some (.cons key valueNode entries, rest4)
      else none

end

/-- `EmbedYAML::parseNode`: pull one event and dispatch. -/
def parseNodeFuel (f : Nat) (evs : List Event) : Option (Node × List Event) :=
  match evs with
  | [] => none
  | e :: rest => parseNodeFromEvent f e rest

/-- `EmbedYAML::parse`: expect stream start, document start, one root node,
document end, stream end; each mismatch or exhausted pull is a distinct
`ParseError`. -/
def parse (evs : List Event) : Except EmbedYAMLError Node :=
  match evs with
  | [] => .error ⟨.ParseError, "Failed to parse stream start"⟩
  | e :: rest =>
    if e ≠ Event.streamStart then .error ⟨.ParseError, "Expected stream start event"⟩
    else
      match rest with
      | [] => .error ⟨.ParseError, "Failed to parse document start"⟩
      | e2 :: rest2 =>
        if e2 ≠ Event.docStart then .error ⟨.ParseError, "Expected document start event"⟩
        else
          match parseNodeFuel (2 * rest2.length + 2) rest2 with
          | none => .error ⟨.ParseError, "Failed to parse YAML node"⟩
          | some (root, rem) =>
            match rem with
            | [] => .error ⟨.ParseError, "Failed to parse document end"⟩
            | e3 :: rem2 =>
              if e3 ≠ Event.docEnd then .error ⟨.ParseError, "Expected document end event"⟩
              else
                match rem2 with
                | [] => .error ⟨.ParseError, "Failed to parse stream end"⟩
                | e4 :: _ =>
                  if e4 ≠ Event.streamEnd then .error ⟨.ParseError, "Expected stream end event"⟩
                  else .ok root

/-! ### The event-stream encoding of a tree

Modelled from the spec: the external lexer that turns raw text into events is
out of scope of the repository ("this system only consumes that stream"), so
the round-trip property is stated at the event level.  `Node.toEvents` is the
event stream that the specification's event vocabulary (stream/document/scalar
/sequence/mapping markers, §4.2 and §6) assigns to a tree: a scalar is one
`scalar` event, a sequence wraps its children's streams in `seqStart`/`seqEnd`,
a mapping contributes one scalar key event followed by the value's stream per
entry, wrapped in `mapStart`/`mapEnd`. -/

mutual

/-- Event-stream encoding of a tree (meaningful for Null-free trees; a Null
payload encodes to the empty stream). -/
def Node.toEvents : Node → List Event
  | .mk _ v => NodeVariant.toEvents v

/-- Event-stream encoding of a payload. -/
def NodeVariant.toEvents : NodeVariant → List Event
  | .nullValue => []
  | .scalarValue s => [.scalar s]
  | .sequenceValue l => .seqStart :: (NodeList.toEvents l ++ [.seqEnd])
  | .mapValue es => .mapStart :: (EntryList.toEvents es ++ [.mapEnd])

/-- Concatenated encodings of the children. -/
def NodeList.toEvents : NodeList → List Event
  | .nil => []
  | .cons h tl => Node.toEvents h ++ NodeList.toEvents tl

/-- Per entry: one scalar key event, then the value's encoding. -/
def EntryList.toEvents : EntryList → List Event
  | .nil => []
  | .cons k v tl => .scalar k :: (Node.toEvents v ++ EntryList.toEvents tl)

end

mutual

/-- Fuel sufficient for the parser to rebuild the tree from its encoding. -/
def Node.need : Node → Nat
  | .mk _ v => NodeVariant.need v

/-- Fuel requirement of a payload's encoding. -/
def NodeVariant.need : NodeVariant → Nat
  | .nullValue => 1
  | .scalarValue _ => 1
  | .sequenceValue l => 1 + NodeList.need l
  | .mapValue es => 1 + EntryList.need es

/-- Fuel requirement of the sequence child loop. -/
def NodeList.need : NodeList → Nat
  | .nil => 1
  | .cons h tl => 1 + max (Node.need h) (NodeList.need tl)

/-- Fuel requirement of the mapping entry loop. -/
def EntryList.need : EntryList → Nat
  | .nil => 1
  | .cons _ v tl => 1 + max (Node.need v) (EntryList.need tl)

end

/-! ### Statement-side definitions -/

/-- A Scalar node holding the given text. -/
def scalarNode (s : String) : Node := .mk .Scalar (.scalarValue s)

/-- The keys of a map payload, in insertion order. -/
def EntryList.keys : EntryList → List String
  | .nil => []
  | .cons k _ tl => k :: tl.keys

/-- No string occurs twice in the list. -/
def distinctB : List String → Bool
  | [] => true
  | k :: ks => (!ks.contains k) && distinctB ks

mutual

/-- No map anywhere in the tree has two entries with the same key. -/
def Node.noDupKeysB : Node → Bool
  | .mk _ v => NodeVariant.noDupKeysB v

/-- No duplicate map keys inside the payload. -/
def NodeVariant.noDupKeysB : NodeVariant → Bool
  | .nullValue => true
  | .scalarValue _ => true
  | .sequenceValue l => NodeList.noDupKeysB l
  | .mapValue es => distinctB es.keys && EntryList.noDupKeysB es

/-- No duplicate map keys inside any child. -/
def NodeList.noDupKeysB : NodeList → Bool
  | .nil => true
  | .cons h tl => Node.noDupKeysB h && NodeList.noDupKeysB tl

/-- No duplicate map keys inside any entry value. -/
def EntryList.noDupKeysB : EntryList → Bool
  | .nil => true
  | .cons _ v tl => Node.noDupKeysB v && EntryList.noDupKeysB tl

end

/-- The text has no initial integer literal at all: it is empty, or its first
character (after an optional minus sign) is not a decimal digit.  This is the
exact condition under which `std::from_chars` reports `invalid_argument`. -/
def noIntPrefixB (s : String) : Bool :=
  match s.data with
  | [] => true
  | c :: rest =>
    if c = '-' then
      match rest with
      | [] => true
      | d :: _ => !d.isDigit
    else !c.isDigit

/-- The tree of the nested-map-plus-sequence emission scenario: a Map sending
`person` to the Sequence of the scalars `Name 1`, `Name 2` and `other` to a
Map with the single entry `key` -> scalar `42`. -/
def scenarioTree : Node :=
  .mk .Map (.mapValue (.cons "person"
    (.mk .Sequence (.sequenceValue (.cons (scalarNode "Name 1")
      (.cons (scalarNode "Name 2") .nil))))
    (.cons "other" (.mk .Map (.mapValue (.cons "key" (scalarNode "42") .nil))) .nil)))

/-! ## Helper lemmas -/

mutual

/-- Any tree containing a `Null`-kind node fails to emit, with an
`EmissionError`, at every indent level. -/
theorem emitNode_containsNull : ∀ (n : Node) (L : Nat), n.containsNullB = true →
    ∃ msg, emitNode n L = .error ⟨.EmissionError, msg⟩
  | .mk .Null v, _, _ => ⟨"Invalid node type for emission", by cases v <;> rfl⟩
  | .mk .Scalar v, L, h => by
    cases v with
    | nullValue => simp [Node.containsNullB, NodeVariant.containsNullB] at h
    | scalarValue s => simp [Node.containsNullB, NodeVariant.containsNullB] at h
    | sequenceValue l => exact ⟨"Invalid scalar node", rfl⟩
    | mapValue es => exact ⟨"Invalid scalar node", rfl⟩
  | .mk .Sequence v, L, h => by
    cases v with
    | nullValue => simp [Node.containsNullB, NodeVariant.containsNullB] at h
    | scalarValue s => simp [Node.containsNullB, NodeVariant.containsNullB] at h
    | sequenceValue l =>
      have hl : l.containsNullB = true := by
        simpa [Node.containsNullB, NodeVariant.containsNullB] using h
      obtain ⟨msg, hm⟩ := emitSeqElems_containsNull l L hl
      exact ⟨msg, by simp [emitNode, hm]⟩
    | mapValue es => exact ⟨"Invalid sequence node", rfl⟩
  | .mk .Map v, L, h => by
    cases v with
    | nullValue => simp [Node.containsNullB, NodeVariant.containsNullB] at h
    | scalarValue s => simp [Node.containsNullB, NodeVariant.containsNullB] at h
    | sequenceValue l => exact ⟨"Invalid mapping node", rfl⟩
    | mapValue es =>
      have he : es.containsNullB = true := by
        simpa [Node.containsNullB, NodeVariant.containsNullB] using h
      obtain ⟨msg, hm⟩ := emitMapEntries_containsNull es L he
      exact ⟨msg, by simp [emitNode, hm]⟩

/-- The sequence element loop fails on a child list containing a `Null`. -/
theorem emitSeqElems_containsNull : ∀ (l : NodeList) (L : Nat),
    l.containsNullB = true → ∃ msg, emitSeqElems l L = .error ⟨.EmissionError, msg⟩
  | .nil, _, h => by simp [NodeList.containsNullB] at h
  | .cons e tl, L, h => by
    rcases he : (if e.isScalar then emitNode e 0 else emitNode e (L + 1)) with err | res
    · exact ⟨"Failed to emit sequence element", by simp [emitSeqElems, he]⟩
    · have hne : e.containsNullB = false := by
        by_contra hc
        have hc' : e.containsNullB = true := by revert hc; cases e.containsNullB <;> simp
        obtain ⟨msg, hm⟩ := emitNode_containsNull e (if e.isScalar then 0 else L + 1) hc'
        rcases hsc : e.isScalar <;> simp [hsc] at he hm <;> simp [hm] at he
      have htl : tl.containsNullB = true := by
        simpa [NodeList.containsNullB, hne] using h
      obtain ⟨msg, hm⟩ := emitSeqElems_containsNull tl L htl
      exact ⟨msg, by simp [emitSeqElems, he, hm]⟩

/-- The mapping entry loop fails on an entry list containing a `Null` value. -/
theorem emitMapEntries_containsNull : ∀ (es : EntryList) (L : Nat),
    es.containsNullB = true → ∃ msg, emitMapEntries es L = .error ⟨.EmissionError, msg⟩
  | .nil, _, h => by simp [EntryList.containsNullB] at h
  | .cons k v tl, L, h => by
    rcases he : (if v.isScalar then emitNode v 0 else emitNode v (L + 1)) with err | res
    · exact ⟨"Failed to emit mapping element", by simp [emitMapEntries, he]⟩
    · have hne : v.containsNullB = false := by
        by_contra hc
        have hc' : v.containsNullB = true := by revert hc; cases v.containsNullB <;> simp
        obtain ⟨msg, hm⟩ := emitNode_containsNull v (if v.isScalar then 0 else L + 1) hc'
        rcases hsc : v.isScalar <;> simp [hsc] at he hm <;> simp [hm] at he
      have htl : tl.containsNullB = true := by
        simpa [EntryList.containsNullB, hne] using h
      obtain ⟨msg, hm⟩ := emitMapEntries_containsNull tl L htl
      exact ⟨msg, by simp [emitMapEntries, he, hm]⟩

end

/-- A found index points at the first entry with the key. -/
theorem findIdx_keyAt : ∀ (es : EntryList) (key : String) (i : Nat),
    es.findIdx key = some i →
    es.keyAt i = some key ∧ ∀ j, j < i → es.keyAt j ≠ some key
  | .nil, key, i, h => by simp [EntryList.findIdx] at h
  | .cons k v tl, key, i, h => by
    by_cases hk : k = key
    · simp [EntryList.findIdx, hk] at h
      subst hk
      exact ⟨by simp [← h, EntryList.keyAt], by omega⟩
    · simp [EntryList.findIdx, hk] at h
      obtain ⟨i1, hi1, rfl⟩ := h
      obtain ⟨h1, h2⟩ := findIdx_keyAt tl key i1 hi1
      refine ⟨by simpa [EntryList.keyAt] using h1, ?_⟩
      intro j hj
      cases j with
      | zero => simp [EntryList.keyAt]; exact hk
      | succ j1 => simpa [EntryList.keyAt] using h2 j1 (by omega)

/-- A found index is in range. -/
theorem findIdx_lt_length : ∀ (es : EntryList) (key : String) (i : Nat),
    es.findIdx key = some i → i < es.length
  | .nil, key, i, h => by simp [EntryList.findIdx] at h
  | .cons k v tl, key, i, h => by
    by_cases hk : k = key
    · simp [EntryList.findIdx, hk] at h
      simp [← h, EntryList.length]
    · simp [EntryList.findIdx, hk] at h
      obtain ⟨i1, hi1, rfl⟩ := h
      have := findIdx_lt_length tl key i1 hi1
      simp [EntryList.length]; omega

/-- `push` appends exactly one entry. -/
theorem push_length : ∀ (es : EntryList) (k : String) (v : Node),
    (es.push k v).length = es.length + 1
  | .nil, _, _ => rfl
  | .cons k0 v0 tl, k, v => by
    simp [EntryList.push, EntryList.length, push_length tl k v]

/-- The appended entry sits at the old length, with the given key. -/
theorem keyAt_push_last : ∀ (es : EntryList) (k : String) (v : Node),
    (es.push k v).keyAt es.length = some k
  | .nil, _, _ => rfl
  | .cons k0 v0 tl, k, v => by
    simpa [EntryList.push, EntryList.length, EntryList.keyAt] using keyAt_push_last tl k v

/-- The appended entry sits at the old length, with the given value. -/
theorem valueAt_push_last : ∀ (es : EntryList) (k : String) (v : Node),
    (es.push k v).valueAt es.length = some v
  | .nil, _, _ => rfl
  | .cons k0 v0 tl, k, v => by
    simpa [EntryList.push, EntryList.length, EntryList.valueAt] using valueAt_push_last tl k v

/-- `push` leaves the keys of existing entries unchanged. -/
theorem keyAt_push_lt : ∀ (es : EntryList) (k : String) (v : Node) (j : Nat),
    j < es.length → (es.push k v).keyAt j = es.keyAt j
  | .nil, _, _, j, hj => by simp [EntryList.length] at hj
  | .cons k0 v0 tl, k, v, j, hj => by
    cases j with
    | zero => rfl
    | succ j1 =>
      have hj1 : j1 < tl.length := by simpa [EntryList.length] using hj
      simpa [EntryList.push, EntryList.keyAt] using keyAt_push_lt tl k v j1 hj1

/-- `push` leaves the values of existing entries unchanged. -/
theorem valueAt_push_lt : ∀ (es : EntryList) (k : String) (v : Node) (j : Nat),
    j < es.length → (es.push k v).valueAt j = es.valueAt j
  | .nil, _, _, j, hj => by simp [EntryList.length] at hj
  | .cons k0 v0 tl, k, v, j, hj => by
    cases j with
    | zero => rfl
    | succ j1 =>
      have hj1 : j1 < tl.length := by simpa [EntryList.length] using hj
      simpa [EntryList.push, EntryList.valueAt] using valueAt_push_lt tl k v j1 hj1

/-- After pushing an absent key, the linear scan finds the new entry. -/
theorem findIdx_push_of_none : ∀ (es : EntryList) (key : String) (v : Node),
    es.findIdx key = none → (es.push key v).findIdx key = some es.length
  | .nil, key, v, _ => by simp [EntryList.push, EntryList.findIdx, EntryList.length]
  | .cons k0 v0 tl, key, v, h => by
    by_cases hk : k0 = key
    · simp [EntryList.findIdx, hk] at h
    · simp [EntryList.findIdx, hk] at h
      simp [EntryList.push, EntryList.findIdx, hk, findIdx_push_of_none tl key v h,
        EntryList.length]

/-- Replacing a value does not change which entry the scan finds. -/
theorem findIdx_setValueAt : ∀ (es : EntryList) (i : Nat) (w : Node) (key : String),
    (es.setValueAt i w).findIdx key = es.findIdx key
  | .nil, _, _, _ => rfl
  | .cons k0 v0 tl, i, w, key => by
    cases i with
    | zero => simp [EntryList.setValueAt, EntryList.findIdx]
    | succ i1 => simp [EntryList.setValueAt, EntryList.findIdx, findIdx_setValueAt tl i1 w key]

/-- Replacing a value in range stores exactly that value. -/
theorem valueAt_setValueAt_self : ∀ (es : EntryList) (i : Nat) (w : Node),
    i < es.length → (es.setValueAt i w).valueAt i = some w
  | .nil, i, w, hi => by simp [EntryList.length] at hi
  | .cons k0 v0 tl, i, w, hi => by
    cases i with
    | zero => rfl
    | succ i1 =>
      have hi1 : i1 < tl.length := by simpa [EntryList.length] using hi
      simpa [EntryList.setValueAt, EntryList.valueAt] using valueAt_setValueAt_self tl i1 w hi1

/-- A successful parse of a `seqStart` event yields a Sequence-kind node. -/
theorem parseNodeFromEvent_seqStart_type (f : Nat) (rest : List Event) (n : Node)
    (r : List Event) (h : parseNodeFromEvent f .seqStart rest = some (n, r)) :
    n.type = .Sequence := by
  cases f with
  | zero => simp [parseNodeFromEvent] at h
  | succ f1 =>
    simp only [parseNodeFromEvent] at h
    rcases hs : parseSeqLoop f1 rest with _ | p
    · rw [hs] at h; simp at h
    · rw [hs] at h
      obtain ⟨rfl, rfl⟩ : Node.mk .Sequence (.sequenceValue p.1) = n ∧ p.2 = r := by
        simpa using h
      rfl

/-- A successful parse of a `mapStart` event yields a Map-kind node. -/
theorem parseNodeFromEvent_mapStart_type (f : Nat) (rest : List Event) (n : Node)
    (r : List Event) (h : parseNodeFromEvent f .mapStart rest = some (n, r)) :
    n.type = .Map := by
  cases f with
  | zero => simp [parseNodeFromEvent] at h
  | succ f1 =>
    simp only [parseNodeFromEvent] at h
    rcases hs : parseMapLoop f1 rest with _ | p
    · rw [hs] at h; simp at h
    · rw [hs] at h
      obtain ⟨rfl, rfl⟩ : Node.mk .Map (.mapValue p.1) = n ∧ p.2 = r := by
        simpa using h
      rfl

/-- A key position holding a `seqStart` event makes the mapping loop fail,
for every fuel value. -/
theorem parseMapLoop_seqStart_key (f : Nat) (rest : List Event) :
    parseMapLoop f (.seqStart :: rest) = none := by
  cases f with
  | zero => rfl
  | succ f1 =>
    rcases hk : parseNodeFromEvent f1 .seqStart rest with _ | p
    · simp [parseMapLoop, hk]
    · have ht := parseNodeFromEvent_seqStart_type f1 rest p.1 p.2 (by simpa using hk)
      simp [parseMapLoop, hk, Node.isScalar, ht]

/-- A key position holding a `mapStart` event makes the mapping loop fail,
for every fuel value. -/
theorem parseMapLoop_mapStart_key (f : Nat) (rest : List Event) :
    parseMapLoop f (.mapStart :: rest) = none := by
  cases f with
  | zero => rfl
  | succ f1 =>
    rcases hk : parseNodeFromEvent f1 .mapStart rest with _ | p
    · simp [parseMapLoop, hk]
    · have ht := parseNodeFromEvent_mapStart_type f1 rest p.1 p.2 (by simpa using hk)
      simp [parseMapLoop, hk, Node.isScalar, ht]

/-- A mapping whose first key event opens a nested sequence fails to parse as
a node, for every fuel value. -/
theorem parseNodeFromEvent_mapStart_seqStart (f : Nat) (r : List Event) :
    parseNodeFromEvent f .mapStart (.seqStart :: r) = none := by
  cases f with
  | zero => rfl
  | succ f1 => simp [parseNodeFromEvent, parseMapLoop_seqStart_key]

/-- A mapping whose first key event opens a nested mapping fails to parse as
a node, for every fuel value. -/
theorem parseNodeFromEvent_mapStart_mapStart (f : Nat) (r : List Event) :
    parseNodeFromEvent f .mapStart (.mapStart :: r) = none := by
  cases f with
  | zero => rfl
  | succ f1 => simp [parseNodeFromEvent, parseMapLoop_mapStart_key]

/-- Every error `parse` returns carries the `ParseError` kind. -/
theorem parse_error_kind (evs : List Event) (e : EmbedYAMLError)
    (h : parse evs = .error e) : e.error = .ParseError := by
  unfold parse at h
  repeat' split at h
  all_goals first
    | exact Except.noConfusion h
    | (injection h with h1; rw [← h1])

/-- A successful `parse` saw exactly stream start, document start, a root
node build consuming the body, document end, then stream end. -/
theorem parse_ok_shape (evs : List Event) (t : Node) (h : parse evs = .ok t) :
    ∃ body rem, evs = .streamStart :: .docStart :: body
      ∧ parseNodeFuel (2 * body.length + 2) body = some (t, .docEnd :: .streamEnd :: rem) := by
  unfold parse at h
  repeat' split at h
  all_goals try exact Except.noConfusion h
  rename_i a1 e1 hss a2 e2 body hds x root a3 e3 hde a4 e4 rem heq hse
  rw [ne_eq, not_not] at hss hds hde hse
  subst hss hds hde hse
  injection h with h2
  subst h2
  exact ⟨body, rem, rfl, heq⟩

/-- Reduction of the sequence child loop on a non-terminator event. -/
theorem parseSeqLoop_cons (f : Nat) (e : Event) (rest : List Event) (hne : e ≠ .seqEnd) :
    parseSeqLoop (f + 1) (e :: rest)
      = match parseNodeFromEvent f e rest with
        | none => none
        | some (child, rest1) =>
          match parseSeqLoop f rest1 with
          | none => none
          | some (sibs, rest2) => some (.cons child sibs, rest2) := by
  cases e <;> first | rfl | exact absurd rfl hne

/-- Reduction of the mapping entry loop on a non-terminator event. -/
theorem parseMapLoop_cons (f : Nat) (e : Event) (rest : List Event) (hne : e ≠ .mapEnd) :
    parseMapLoop (f + 1) (e :: rest)
      = match parseNodeFromEvent f e rest with
        | none => none
        | some (keyNode, rest1) =>
          if keyNode.isScalar then
            match keyNode.asStringOpt with
            | none => none
            | some key =>
              match rest1 with
              | [] => none
              | e2 :: rest2 =>
                match parseNodeFromEvent f e2 rest2 with
                | none => none
                | some (valueNode, rest3) =>
                  match parseMapLoop f rest3 with
                  | none => none
                  | some (entries, rest4) => some (.cons key valueNode entries, rest4)
          else none := by
  cases e <;> first | rfl | exact absurd rfl hne

mutual

/-- Every node the event parser builds is well-formed. -/
theorem parseNodeFromEvent_wf : ∀ (f : Nat) (e : Event) (evs : List Event) (n : Node)
    (r : List Event), parseNodeFromEvent f e evs = some (n, r) → n.wfB = true
  | 0, _, _, _, _ => by intro h; simp [parseNodeFromEvent] at h
  | f + 1, .scalar s, evs, n, r => by
    intro h
    rw [show parseNodeFromEvent (f + 1) (.scalar s) evs
        = some (.mk .Scalar (.scalarValue s), evs) from rfl] at h
    simp only [Option.some.injEq, Prod.mk.injEq] at h
    obtain ⟨rfl, rfl⟩ := h
    rfl
  | f + 1, .seqStart, evs, n, r => by
    intro h
    simp only [parseNodeFromEvent] at h
    rcases hs : parseSeqLoop f evs with _ | ⟨elems, r1⟩ <;> simp only [hs] at h
    · simp at h
    · simp only [Option.some.injEq, Prod.mk.injEq] at h
      obtain ⟨rfl, rfl⟩ := h
      simpa [Node.wfB] using parseSeqLoop_wf f evs elems r1 hs
  | f + 1, .mapStart, evs, n, r => by
    intro h
    simp only [parseNodeFromEvent] at h
    rcases hs : parseMapLoop f evs with _ | ⟨entries, r1⟩ <;> simp only [hs] at h
    · simp at h
    · simp only [Option.some.injEq, Prod.mk.injEq] at h
      obtain ⟨rfl, rfl⟩ := h
      simpa [Node.wfB] using parseMapLoop_wf f evs entries r1 hs
  | f + 1, .streamStart, evs, n, r => by intro h; simp [parseNodeFromEvent] at h
  | f + 1, .streamEnd, evs, n, r => by intro h; simp [parseNodeFromEvent] at h
  | f + 1, .docStart, evs, n, r => by intro h; simp [parseNodeFromEvent] at h
  | f + 1, .docEnd, evs, n, r => by intro h; simp [parseNodeFromEvent] at h
  | f + 1, .seqEnd, evs, n, r => by intro h; simp [parseNodeFromEvent] at h
  | f + 1, .mapEnd, evs, n, r => by intro h; simp [parseNodeFromEvent] at h

/-- Every child list the sequence loop builds is well-formed. -/
theorem parseSeqLoop_wf : ∀ (f : Nat) (evs : List Event) (l : NodeList) (r : List Event),
    parseSeqLoop f evs = some (l, r) → NodeList.wfB l = true
  | 0, _, _, _ => by intro h; simp [parseSeqLoop] at h
  | f + 1, [], _, _ => by intro h; simp [parseSeqLoop] at h
  | f + 1, e :: rest, l, r => by
    intro h
    by_cases hne : e = Event.seqEnd
    · subst hne
      rw [show parseSeqLoop (f + 1) (Event.seqEnd :: rest) = some (.nil, rest) from rfl] at h
      simp only [Option.some.injEq, Prod.mk.injEq] at h
      obtain ⟨rfl, rfl⟩ := h
      rfl
    · rw [parseSeqLoop_cons f e rest hne] at h
      rcases hk : parseNodeFromEvent f e rest with _ | ⟨child, rest1⟩ <;> simp only [hk] at h
      · simp at h
      · rcases hs : parseSeqLoop f rest1 with _ | ⟨sibs, rest2⟩ <;> simp only [hs] at h
        · simp at h
        · simp only [Option.some.injEq, Prod.mk.injEq] at h
          obtain ⟨rfl, rfl⟩ := h
          simp [NodeList.wfB, parseNodeFromEvent_wf f e rest child rest1 hk,
            parseSeqLoop_wf f rest1 sibs rest2 hs]

/-- Every entry list the mapping loop builds is well-formed. -/
theorem parseMapLoop_wf : ∀ (f : Nat) (evs : List Event) (es : EntryList) (r : List Event),
    parseMapLoop f evs = some (es, r) → EntryList.wfB es = true
  | 0, _, _, _ => by intro h; simp [parseMapLoop] at h
  | f + 1, [], _, _ => by intro h; simp [parseMapLoop] at h
  | f + 1, e :: rest, es, r => by
    intro h
    by_cases hne : e = Event.mapEnd
    · subst hne
      rw [show parseMapLoop (f + 1) (Event.mapEnd :: rest) = some (.nil, rest) from rfl] at h
      simp only [Option.some.injEq, Prod.mk.injEq] at h
      obtain ⟨rfl, rfl⟩ := h
      rfl
    · rw [parseMapLoop_cons f e rest hne] at h
      rcases hk : parseNodeFromEvent f e rest with _ | ⟨keyNode, rest1⟩ <;> simp only [hk] at h
      · simp at h
      · rcases hsc : keyNode.isScalar with _ | _
        · rw [if_neg (by simp [hsc])] at h
          simp at h
        · rw [if_pos (by simp [hsc])] at h
          rcases hks : keyNode.asStringOpt with _ | key <;> simp only [hks] at h
          · simp at h
          · rcases rest1 with _ | ⟨e2, rest2⟩
            · simp at h
            · rcases hv : parseNodeFromEvent f e2 rest2 with _ | ⟨valueNode, rest3⟩ <;>
                simp only [hv] at h
              · simp at h
              · rcases hm : parseMapLoop f rest3 with _ | ⟨entries, rest4⟩ <;> simp only [hm] at h
                · simp at h
                · simp only [Option.some.injEq, Prod.mk.injEq] at h
                  obtain ⟨rfl, rfl⟩ := h
                  simp [EntryList.wfB, parseNodeFromEvent_wf f e2 rest2 valueNode rest3 hv,
                    parseMapLoop_wf f rest3 entries rest4 hm]

end

/-- `push` preserves well-formedness of an entry list. -/
theorem push_wfB_entry : ∀ (es : EntryList) (k : String) (v : Node),
    EntryList.wfB es = true → Node.wfB v = true → EntryList.wfB (es.push k v) = true
  | .nil, k, v, _, hv => by simp [EntryList.push, EntryList.wfB, hv]
  | .cons k0 v0 tl, k, v, he, hv => by
    simp only [EntryList.wfB, Bool.and_eq_true] at he
    simp [EntryList.push, EntryList.wfB, he.1, push_wfB_entry tl k v he.2 hv]

/-- Entries of a well-formed entry list hold well-formed values. -/
theorem valueAt_wfB : ∀ (es : EntryList) (i : Nat) (m : Node),
    EntryList.wfB es = true → es.valueAt i = some m → m.wfB = true
  | .nil, i, m, _, hv => by simp [EntryList.valueAt] at hv
  | .cons k0 v0 tl, 0, m, he, hv => by
    simp only [EntryList.valueAt, Option.some.injEq] at hv
    simp only [EntryList.wfB, Bool.and_eq_true] at he
    exact hv ▸ he.1
  | .cons k0 v0 tl, i + 1, m, he, hv => by
    simp only [EntryList.wfB, Bool.and_eq_true] at he
    exact valueAt_wfB tl i m he.2 (by simpa [EntryList.valueAt] using hv)

/-- Children of a well-formed child list are well-formed. -/
theorem get?_wfB : ∀ (l : NodeList) (i : Nat) (m : Node),
    NodeList.wfB l = true → l.get? i = some m → m.wfB = true
  | .nil, i, m, _, hv => by simp [NodeList.get?] at hv
  | .cons h0 tl, 0, m, hl, hv => by
    simp only [NodeList.get?, Option.some.injEq] at hv
    simp only [NodeList.wfB, Bool.and_eq_true] at hl
    exact hv ▸ hl.1
  | .cons h0 tl, i + 1, m, hl, hv => by
    simp only [NodeList.wfB, Bool.and_eq_true] at hl
    exact get?_wfB tl i m hl.2 (by simpa [NodeList.get?] using hv)

/-- `push` preserves well-formedness of a child list. -/
theorem push_wfB_nodeList : ∀ (l : NodeList) (c : Node),
    NodeList.wfB l = true → Node.wfB c = true → NodeList.wfB (l.push c) = true
  | .nil, c, _, hc => by simp [NodeList.push, NodeList.wfB, hc]
  | .cons h0 tl, c, hl, hc => by
    simp only [NodeList.wfB, Bool.and_eq_true] at hl
    simp [NodeList.push, NodeList.wfB, hl.1, push_wfB_nodeList tl c hl.2 hc]

/-- A node returned by `parseNode` is well-formed. -/
theorem parseNodeFuel_wf (f : Nat) (evs : List Event) (n : Node) (r : List Event)
    (h : parseNodeFuel f evs = some (n, r)) : n.wfB = true := by
  cases evs with
  | nil => simp [parseNodeFuel] at h
  | cons e rest => exact parseNodeFromEvent_wf f e rest n r h

/-- Every node needs at least one unit of fuel. -/
theorem need_pos (n : Node) : 1 ≤ n.need := by
  cases n with
  | mk t v => cases v <;> simp [Node.need, NodeVariant.need]

/-- The encoding of a well-formed Null-free node starts with a scalar,
sequence-start or mapping-start event. -/
theorem toEventsHead (n : Node) (hw : n.wfB = true) (hnf : n.nullFreeB = true) :
    (∃ s t1, n.toEvents = .scalar s :: t1)
    ∨ (∃ t1, n.toEvents = .seqStart :: t1)
    ∨ (∃ t1, n.toEvents = .mapStart :: t1) := by
  cases n with
  | mk t v =>
    cases v with
    | nullValue =>
      cases t <;> simp [Node.wfB] at hw
      simp [Node.nullFreeB] at hnf
    | scalarValue s =>
      exact Or.inl ⟨s, [], by simp [Node.toEvents, NodeVariant.toEvents]⟩
    | sequenceValue l =>
      exact Or.inr (Or.inl ⟨l.toEvents ++ [.seqEnd], by simp [Node.toEvents, NodeVariant.toEvents]⟩)
    | mapValue es =>
      exact Or.inr (Or.inr ⟨es.toEvents ++ [.mapEnd], by simp [Node.toEvents, NodeVariant.toEvents]⟩)

/-- The encoding of a well-formed Null-free node is nonempty. -/
theorem toEvents_len_pos (n : Node) (hw : n.wfB = true) (hnf : n.nullFreeB = true) :
    1 ≤ n.toEvents.length := by
  rcases toEventsHead n hw hnf with ⟨s, t1, he⟩ | ⟨t1, he⟩ | ⟨t1, he⟩ <;> simp [he]

mutual

/-- The fuel requirement of a node is covered by twice its encoding length. -/
theorem need_le_node : ∀ n : Node, n.wfB = true → n.nullFreeB = true →
    n.need ≤ 2 * n.toEvents.length
  | .mk t .nullValue => by
    intro hw hnf
    cases t <;> simp [Node.wfB] at hw
    simp [Node.nullFreeB] at hnf
  | .mk t (.scalarValue s) => by
    intro hw hnf
    simp [Node.need, NodeVariant.need, Node.toEvents, NodeVariant.toEvents]
  | .mk t (.sequenceValue l) => by
    intro hw hnf
    cases t <;> simp [Node.wfB] at hw
    have hnf1 : l.nullFreeB = true := by
      simpa [Node.nullFreeB, NodeVariant.nullFreeB] using hnf
    have ih := need_le_list l hw hnf1
    simp only [Node.need, NodeVariant.need, Node.toEvents, NodeVariant.toEvents,
      List.length_cons, List.length_append, List.length_singleton]
    omega
  | .mk t (.mapValue es) => by
    intro hw hnf
    cases t <;> simp [Node.wfB] at hw
    have hnf1 : es.nullFreeB = true := by
      simpa [Node.nullFreeB, NodeVariant.nullFreeB] using hnf
    have ih := need_le_entry es hw hnf1
    simp only [Node.need, NodeVariant.need, Node.toEvents, NodeVariant.toEvents,
      List.length_cons, List.length_append, List.length_singleton]
    omega

/-- The fuel requirement of a child loop is covered by the encoding length. -/
theorem need_le_list : ∀ l : NodeList, l.wfB = true → l.nullFreeB = true →
    l.need ≤ 2 * l.toEvents.length + 1
  | .nil => by intro _ _; simp [NodeList.need, NodeList.toEvents]
  | .cons h tl => by
    intro hw hnf
    obtain ⟨hw1, hw2⟩ : h.wfB = true ∧ tl.wfB = true := by
      simpa [NodeList.wfB, Bool.and_eq_true] using hw
    obtain ⟨hnf1, hnf2⟩ : h.nullFreeB = true ∧ tl.nullFreeB = true := by
      simpa [NodeList.nullFreeB, Bool.and_eq_true] using hnf
    have ih1 := need_le_node h hw1 hnf1
    have ih2 := need_le_list tl hw2 hnf2
    have hpos := toEvents_len_pos h hw1 hnf1
    have hm : max (Node.need h) (NodeList.need tl)
        ≤ 2 * h.toEvents.length + 2 * tl.toEvents.length :=
      Nat.max_le.mpr ⟨by omega, by omega⟩
    simp only [NodeList.need, NodeList.toEvents, List.length_append]
    omega

/-- The fuel requirement of an entry loop is covered by the encoding length. -/
theorem need_le_entry : ∀ es : EntryList, es.wfB = true → es.nullFreeB = true →
    es.need ≤ 2 * es.toEvents.length + 1
  | .nil => by intro _ _; simp [EntryList.need, EntryList.toEvents]
  | .cons k v tl => by
    intro hw hnf
    obtain ⟨hw1, hw2⟩ : v.wfB = true ∧ tl.wfB = true := by
      simpa [EntryList.wfB, Bool.and_eq_true] using hw
    obtain ⟨hnf1, hnf2⟩ : v.nullFreeB = true ∧ tl.nullFreeB = true := by
      simpa [EntryList.nullFreeB, Bool.and_eq_true] using hnf
    have ih1 := need_le_node v hw1 hnf1
    have ih2 := need_le_entry tl hw2 hnf2
    have hm : max (Node.need v) (EntryList.need tl)
        ≤ 2 * v.toEvents.length + 2 * tl.toEvents.length + 1 :=
      Nat.max_le.mpr ⟨by omega, by omega⟩
    simp only [EntryList.need, EntryList.toEvents, List.length_append, List.length_cons]
    omega

end

mutual

/-- Running the node builder on the encoding of a well-formed Null-free tree
(with any sufficient fuel) rebuilds exactly that tree and consumes exactly
its encoding. -/
theorem roundNode : ∀ n : Node, n.wfB = true → n.nullFreeB = true →
    ∀ (rest : List Event) (f : Nat), n.need ≤ f →
    parseNodeFuel f (n.toEvents ++ rest) = some (n, rest)
  | .mk t .nullValue => by
    intro hw hnf
    cases t <;> simp [Node.wfB] at hw
    simp [Node.nullFreeB] at hnf
  | .mk t (.scalarValue s) => by
    intro hw hnf rest f hf
    cases t <;> simp [Node.wfB] at hw
    have hf1 : 1 ≤ f := le_trans (need_pos _) hf
    obtain ⟨f1, rfl⟩ : ∃ f1, f = f1 + 1 := ⟨f - 1, by omega⟩
    simp [Node.toEvents, NodeVariant.toEvents, parseNodeFuel, parseNodeFromEvent]
  | .mk t (.sequenceValue l) => by
    intro hw hnf rest f hf
    cases t <;> simp [Node.wfB] at hw
    have hnf1 : l.nullFreeB = true := by
      simpa [Node.nullFreeB, NodeVariant.nullFreeB] using hnf
    have hneed : 1 + l.need ≤ f := by
      simpa [Node.need, NodeVariant.need] using hf
    obtain ⟨f1, rfl⟩ : ∃ f1, f = f1 + 1 := ⟨f - 1, by omega⟩
    have hrec := roundSeq l hw hnf1 rest f1 (by omega)
    simp [Node.toEvents, NodeVariant.toEvents, parseNodeFuel, parseNodeFromEvent,
      List.cons_append, List.append_assoc, List.singleton_append, hrec]
  | .mk t (.mapValue es) => by
    intro hw hnf rest f hf
    cases t <;> simp [Node.wfB] at hw
    have hnf1 : es.nullFreeB = true := by
      simpa [Node.nullFreeB, NodeVariant.nullFreeB] using hnf
    have hneed : 1 + es.need ≤ f := by
      simpa [Node.need, NodeVariant.need] using hf
    obtain ⟨f1, rfl⟩ : ∃ f1, f = f1 + 1 := ⟨f - 1, by omega⟩
    have hrec := roundMap es hw hnf1 rest f1 (by omega)
    simp [Node.toEvents, NodeVariant.toEvents, parseNodeFuel, parseNodeFromEvent,
      List.cons_append, List.append_assoc, List.singleton_append, hrec]

/-- The sequence loop rebuilds a well-formed Null-free child list from its
encoding followed by the terminator. -/
theorem roundSeq : ∀ l : NodeList, NodeList.wfB l = true → NodeList.nullFreeB l = true →
    ∀ (rest : List Event) (f : Nat), NodeList.need l ≤ f →
    parseSeqLoop f (NodeList.toEvents l ++ (.seqEnd :: rest)) = some (l, rest)
  | .nil => by
    intro _ _ rest f hf
    obtain ⟨f1, rfl⟩ : ∃ f1, f = f1 + 1 := ⟨f - 1, by
      have h1 : (1 : Nat) ≤ f := by simpa [NodeList.need] using hf
      omega⟩
    rfl
  | .cons h tl => by
    intro hw hnf rest f hf
    obtain ⟨hw1, hw2⟩ : h.wfB = true ∧ NodeList.wfB tl = true := by
      simpa [NodeList.wfB, Bool.and_eq_true] using hw
    obtain ⟨hnf1, hnf2⟩ : h.nullFreeB = true ∧ NodeList.nullFreeB tl = true := by
      simpa [NodeList.nullFreeB, Bool.and_eq_true] using hnf
    have hneed : 1 + max (Node.need h) (NodeList.need tl) ≤ f := by
      simpa [NodeList.need] using hf
    obtain ⟨f1, rfl⟩ : ∃ f1, f = f1 + 1 := ⟨f - 1, by omega⟩
    have hm := Nat.max_le.mp (show max (Node.need h) (NodeList.need tl) ≤ f1 by omega)
    have hrecN := roundNode h hw1 hnf1 (NodeList.toEvents tl ++ (.seqEnd :: rest)) f1 hm.1
    have hrecS := roundSeq tl hw2 hnf2 rest f1 hm.2
    rcases toEventsHead h hw1 hnf1 with ⟨s, t1, he⟩ | ⟨t1, he⟩ | ⟨t1, he⟩ <;>
    · rw [he] at hrecN
      simp only [List.cons_append, parseNodeFuel] at hrecN
      simp only [NodeList.toEvents, List.append_assoc, he, List.cons_append]
      rw [parseSeqLoop_cons f1 _ _ (by simp)]
      simp only [hrecN, hrecS]

/-- The mapping loop rebuilds a well-formed Null-free entry list from its
encoding followed by the terminator. -/
theorem roundMap : ∀ es : EntryList, EntryList.wfB es = true → EntryList.nullFreeB es = true →
    ∀ (rest : List Event) (f : Nat), EntryList.need es ≤ f →
    parseMapLoop f (EntryList.toEvents es ++ (.mapEnd :: rest)) = some (es, rest)
  | .nil => by
    intro _ _ rest f hf
    obtain ⟨f1, rfl⟩ : ∃ f1, f = f1 + 1 := ⟨f - 1, by
      have h1 : (1 : Nat) ≤ f := by simpa [EntryList.need] using hf
      omega⟩
    rfl
  | .cons k v tl => by
    intro hw hnf rest f hf
    obtain ⟨hw1, hw2⟩ : v.wfB = true ∧ EntryList.wfB tl = true := by
      simpa [EntryList.wfB, Bool.and_eq_true] using hw
    obtain ⟨hnf1, hnf2⟩ : v.nullFreeB = true ∧ EntryList.nullFreeB tl = true := by
      simpa [EntryList.nullFreeB, Bool.and_eq_true] using hnf
    have hneed : 1 + max (Node.need v) (EntryList.need tl) ≤ f := by
      simpa [EntryList.need] using hf
    obtain ⟨f1, rfl⟩ : ∃ f1, f = f1 + 1 := ⟨f - 1, by omega⟩
    have hm := Nat.max_le.mp (show max (Node.need v) (EntryList.need tl) ≤ f1 by omega)
    have hf2 : 1 ≤ f1 := le_trans (need_pos v) hm.1
    have hrecN := roundNode v hw1 hnf1 (EntryList.toEvents tl ++ (.mapEnd :: rest)) f1 hm.1
    have hrecM := roundMap tl hw2 hnf2 rest f1 hm.2
    have hkey : ∀ Y : List Event, parseNodeFromEvent f1 (Event.scalar k) Y
        = some (.mk .Scalar (.scalarValue k), Y) := by
      obtain ⟨f2, rfl⟩ : ∃ f2, f1 = f2 + 1 := ⟨f1 - 1, by omega⟩
      intro Y
      rfl
    rcases toEventsHead v hw1 hnf1 with ⟨s, t1, he⟩ | ⟨t1, he⟩ | ⟨t1, he⟩ <;>
    · rw [he] at hrecN
      simp only [List.cons_append, parseNodeFuel] at hrecN
      simp only [EntryList.toEvents, List.append_assoc, he, List.cons_append]
      rw [parseMapLoop_cons f1 _ _ (by simp)]
      simp only [hkey, Node.isScalar, Node.type, Node.asStringOpt, if_true]
      simp only [hrecN, hrecM]
      simp

end

/-- `digitVal` on a decimal digit character. -/
theorem digitVal_isDigit (c : Char) (h : c.isDigit = true) :
    digitVal c = some (c.toNat - '0'.toNat) := by
  simp [Char.isDigit] at h
  rw [digitVal, if_pos (⟨h.1, h.2⟩ : ('0' ≤ c ∧ c ≤ '9'))]

/-- `digitVal` on a non-digit character. -/
theorem digitVal_not_digit (c : Char) (h : c.isDigit = false) : digitVal c = none := by
  rw [digitVal, if_neg]
  intro hc
  rw [Char.isDigit, Bool.and_eq_false_iff] at h
  rcases h with h | h <;> simp only [decide_eq_false_iff_not] at h
  · exact h hc.1
  · exact h hc.2

/-- `takeDigits` splits a digit run followed by a non-digit remainder exactly
at the boundary. -/
theorem takeDigits_append : ∀ (cs rest : List Char),
    (∀ c ∈ cs, c.isDigit = true) → (∀ d ds, rest = d :: ds → d.isDigit = false) →
    takeDigits (cs ++ rest) = (cs.map (fun c => c.toNat - '0'.toNat), rest)
  | [], rest, _, hrest => by
    cases rest with
    | nil => rfl
    | cons d ds =>
      simp only [List.nil_append, List.map_nil]
      simp [takeDigits, digitVal_not_digit d (hrest d ds rfl)]
  | c :: cs1, rest, hall, hrest => by
    have hc : c.isDigit = true := hall c (by simp)
    have ih := takeDigits_append cs1 rest (fun x hx => hall x (by simp [hx])) hrest
    simp [takeDigits, digitVal_isDigit c hc, ih]

/-- The emitter-side fold agrees with Mathlib's little-endian digit value on
the reversed digit list. -/
theorem foldl_eq_ofDigits : ∀ (ds : List Nat) (a : Nat),
    ds.foldl (fun x d => x * 10 + d) a = a * 10 ^ ds.length + Nat.ofDigits 10 ds.reverse
  | [], a => by simp [Nat.ofDigits]
  | d :: ds, a => by
    have ih := foldl_eq_ofDigits ds (a * 10 + d)
    simp only [List.foldl_cons, List.reverse_cons, List.length_cons] at *
    rw [ih, Nat.ofDigits_append, List.length_reverse]
    simp [Nat.ofDigits]
    ring

/-- `digitsToNat` in terms of `Nat.ofDigits`. -/
theorem digitsToNat_eq_ofDigits (ds : List Nat) :
    digitsToNat ds = Nat.ofDigits 10 ds.reverse := by
  have := foldl_eq_ofDigits ds 0
  simpa [digitsToNat] using this

/-- The sign test of `from_chars` on a non-minus head character. -/
theorem signSplit_not_minus (c : Char) (cs : List Char) (hne : c ≠ '-') :
    signSplit (c :: cs) = ((false : Bool), c :: cs) := by
  rw [signSplit.eq_def]
  split
  · rename_i t ht
    injection ht with h1 _
    exact absurd h1 hne
  · rfl

/-- `from_chars` on a digit run followed by a non-digit remainder parses
exactly the run: the remainder is ignored, not rejected. -/
theorem fromCharsInt_digits (cs tcs : List Char) (hne : cs ≠ [])
    (hall : ∀ c ∈ cs, c.isDigit = true)
    (htcs : ∀ d ds, tcs = d :: ds → d.isDigit = false)
    (hle : ((Nat.ofDigits 10 ((cs.map fun c => c.toNat - '0'.toNat).reverse) : Nat) : Int)
      ≤ intMax) :
    fromCharsInt (String.mk (cs ++ tcs))
      = .ok ((Nat.ofDigits 10 ((cs.map fun c => c.toNat - '0'.toNat).reverse) : Nat) : Int) := by
  obtain ⟨c, cs1, rfl⟩ : ∃ c cs1, cs = c :: cs1 := by
    cases cs with
    | nil => exact absurd rfl hne
    | cons c cs1 => exact ⟨c, cs1, rfl⟩
  have hc : c.isDigit = true := hall c (by simp)
  have hcm : c ≠ '-' := by
    intro h
    subst h
    exact absurd hc (by decide)
  have htake := takeDigits_append (c :: cs1) tcs hall htcs
  rw [List.cons_append] at htake
  have hmin : intMin = -2147483648 := by decide
  simp only [fromCharsInt, List.cons_append]
  simp only [signSplit_not_minus c (cs1 ++ tcs) hcm]
  simp only [htake]
  rw [if_neg (by simp)]
  simp only [digitsToNat_eq_ofDigits, Bool.false_eq_true, if_false, one_mul]
  rw [if_neg]
  intro hor
  have hnn : (0 : Int)
      ≤ ((Nat.ofDigits 10 ((List.map (fun c => c.toNat - '0'.toNat) (c :: cs1)).reverse)
          : Nat) : Int) :=
    Int.natCast_nonneg _
  rcases hor with hlt | hgt
  · rw [hmin] at hlt
    omega
  · exact absurd hle (by omega)

/-- `from_chars` on a string with no initial integer literal reports
`invalid_argument`. -/
theorem fromCharsInt_noPrefix (s : String) (h : noIntPrefixB s = true) :
    fromCharsInt s = .error .invalid_argument := by
  cases s with
  | mk data =>
    cases data with
    | nil => rfl
    | cons c rest =>
      simp only [noIntPrefixB] at h
      by_cases hcm : c = '-'
      · subst hcm
        rw [if_pos rfl] at h
        cases rest with
        | nil => rfl
        | cons d ds =>
          have hd : d.isDigit = false := by simpa using h
          simp only [fromCharsInt]
          simp [takeDigits, digitVal_not_digit d hd]
      · rw [if_neg hcm] at h
        have hc : c.isDigit = false := by simpa using h
        simp only [fromCharsInt,
          show (String.mk (c :: rest)).data = c :: rest from rfl,
          signSplit_not_minus c rest hcm]
        simp [takeDigits, digitVal_not_digit c hc]

/-! ## Claim theorems -/

/-- Claim C2, counterexample: on the text `42abc`, `as<int>` returns 42 (the
value of the digit prefix), not a `ScalarConversionError`: `from_chars` is
never asked whether it consumed the whole string. -/
theorem asInt_trailing_garbage_ok : Node.asInt (scalarNode "42abc") = .ok 42 := rfl

/-- Claim C2, amended: `as<int>` on a Scalar returns the integer denoted by
the longest initial digit run (trailing garbage is silently ignored) whenever
that run is nonempty and its value fits in `int`; it returns a
`ScalarConversionError` exactly when there is no initial integer literal at
all (empty or malformed start) or the value is out of range; concretely,
`42` gives 42, the empty string and `9999999999` give the error, and `42abc`
gives 42, not an error. -/
theorem asInt_prefix_semantics :
    (∀ (cs tcs : List Char), cs ≠ [] → (∀ c ∈ cs, c.isDigit = true) →
      (∀ d ds, tcs = d :: ds → d.isDigit = false) →
      (((Nat.ofDigits 10 ((cs.map fun c => c.toNat - '0'.toNat).reverse) : Nat) : Int)
        ≤ intMax) →
      Node.asInt (.mk .Scalar (.scalarValue (String.mk (cs ++ tcs))))
        = .ok ((Nat.ofDigits 10 ((cs.map fun c => c.toNat - '0'.toNat).reverse) : Nat) : Int))
    ∧ (∀ s : String, noIntPrefixB s = true →
      Node.asInt (.mk .Scalar (.scalarValue s))
        = .error ⟨.ScalarConversionError, "Conversion failed"⟩)
    ∧ Node.asInt (scalarNode "42") = .ok 42
    ∧ Node.asInt (scalarNode "") = .error ⟨.ScalarConversionError, "Conversion failed"⟩
    ∧ Node.asInt (scalarNode "42abc") = .ok 42
    ∧ Node.asInt (scalarNode "9999999999")
        = .error ⟨.ScalarConversionError, "Conversion failed"⟩ := by
  refine ⟨?_, ?_, rfl, rfl, rfl, rfl⟩
  · intro cs tcs hne hall htcs hle
    simp [Node.asInt, Node.isScalar, Node.type, Node.value,
      fromCharsInt_digits cs tcs hne hall htcs hle]
  · intro s hs
    simp [Node.asInt, Node.isScalar, Node.type, Node.value, fromCharsInt_noPrefix s hs]

/-- Witness for `asInt_prefix_semantics`: the digit run `42` followed by the
garbage `abc` converts to 42. -/
theorem asInt_prefix_semantics_witness :
    (['4', '2'] : List Char) ≠ []
    ∧ (∀ c ∈ (['4', '2'] : List Char), c.isDigit = true)
    ∧ (((Nat.ofDigits 10 (((['4', '2'] : List Char).map
        fun c => c.toNat - '0'.toNat).reverse) : Nat) : Int) ≤ intMax)
    ∧ Node.asInt (.mk .Scalar (.scalarValue (String.mk (['4', '2'] ++ ['a', 'b', 'c']))))
        = .ok ((Nat.ofDigits 10 (((['4', '2'] : List Char).map
            fun c => c.toNat - '0'.toNat).reverse) : Nat) : Int) :=
  ⟨by decide, by decide, by decide,
   asInt_prefix_semantics.1 ['4', '2'] ['a', 'b', 'c'] (by decide) (by decide)
     (by
       intro d ds h
       injection h with h1 h2
       rw [← h1]
       decide)
     (by decide)⟩

/-- Claim C5: an event stream in which a mapping key position holds an event
that resolves to a non-scalar node (a nested sequence or mapping) fails:
the mapping-entry loop rejects such a key for every fuel value, and a
document whose root mapping opens with such a key makes `parse` return a
`ParseError` and no tree. -/
theorem nonScalarKey_parse_fails :
    (∀ (f : Nat) (rest : List Event), parseMapLoop f (.seqStart :: rest) = none)
    ∧ (∀ (f : Nat) (rest : List Event), parseMapLoop f (.mapStart :: rest) = none)
    ∧ (∀ rest : List Event,
        parse (.streamStart :: .docStart :: .mapStart :: .seqStart :: rest)
          = .error ⟨.ParseError, "Failed to parse YAML node"⟩)
    ∧ (∀ rest : List Event,
        parse (.streamStart :: .docStart :: .mapStart :: .mapStart :: rest)
          = .error ⟨.ParseError, "Failed to parse YAML node"⟩) := by
  refine ⟨parseMapLoop_seqStart_key, parseMapLoop_mapStart_key, ?_, ?_⟩
  · intro rest
    simp [parse, parseNodeFuel, parseNodeFromEvent_mapStart_seqStart]
  · intro rest
    simp [parse, parseNodeFuel, parseNodeFromEvent_mapStart_mapStart]

/-- Claim C3, counterexample: emitting a `Null`-kind node does not produce the
literal text `null`; `emitNode`'s `Null` case is an `EmissionError`. -/
theorem emit_null_not_null_text : emit (Node.ofType .Null) ≠ Except.ok "null" := by
  intro h
  rw [show emit (Node.ofType .Null)
      = Except.error ⟨.EmissionError, "Invalid node type for emission"⟩ from rfl] at h
  exact Except.noConfusion h

/-- Claim C3, amended: emitting a `Null`-kind node fails with an
`EmissionError` at every position — any tree containing a `Null`-kind node
fails to emit at every indent level, and concretely a `Null` root, a `Null`
sequence element and a `Null` map value each produce an `EmissionError`. -/
theorem emit_null_fails :
    (∀ (n : Node) (L : Nat), n.containsNullB = true →
      ∃ msg, emitNode n L = .error ⟨.EmissionError, msg⟩)
    ∧ emit (Node.ofType .Null) = .error ⟨.EmissionError, "Invalid node type for emission"⟩
    ∧ emit (.mk .Sequence (.sequenceValue (.cons (Node.ofType .Null) .nil)))
        = .error ⟨.EmissionError, "Failed to emit sequence element"⟩
    ∧ emit (.mk .Map (.mapValue (.cons "k" (Node.ofType .Null) .nil)))
        = .error ⟨.EmissionError, "Failed to emit mapping element"⟩ :=
  ⟨emitNode_containsNull, rfl, rfl, rfl⟩

/-- Witness for `emit_null_fails` at the `Null` root node. -/
theorem emit_null_fails_witness :
    (Node.ofType .Null).containsNullB = true
    ∧ ∃ msg, emitNode (Node.ofType .Null) 0 = .error ⟨.EmissionError, msg⟩ :=
  ⟨rfl, emit_null_fails.1 (Node.ofType .Null) 0 rfl⟩

/-- Claim C6, counterexample: the scenario tree does not emit with the
sequence items unindented under their key. -/
theorem emit_scenario_not_unindented :
    emit scenarioTree ≠ Except.ok "person:\n- Name 1\n- Name 2\nother:\n  key: 42\n" := by
  intro h
  rw [show emit scenarioTree
      = Except.ok "person:\n  - Name 1\n  - Name 2\nother:\n  key: 42\n" from rfl] at h
  exact absurd (Except.ok.inj h) (by decide)

/-- Claim C6, amended: emitting the scenario tree produces exactly the text
with BOTH the sequence items and the nested map entry indented two spaces
under their keys (children of a map value are emitted at indent level 1). -/
theorem emit_scenario_eq :
    emit scenarioTree = Except.ok "person:\n  - Name 1\n  - Name 2\nother:\n  key: 42\n" := rfl

/-- Claim C10: emitting an empty Sequence node or an empty Map node succeeds
and produces the empty string, at every indent level and at the top level. -/
theorem emit_empty_containers : ∀ L : Nat,
    emitNode (Node.ofType .Sequence) L = .ok ""
    ∧ emitNode (Node.ofType .Map) L = .ok ""
    ∧ emit (Node.ofType .Sequence) = .ok ""
    ∧ emit (Node.ofType .Map) = .ok "" :=
  fun _ => ⟨rfl, rfl, rfl, rfl⟩

/-- Claim C8: assigning a value to a node of any prior kind (and payload)
produces a Scalar-kind node whose payload is exactly the text representation
of the assigned value; the result is independent of the previous state and is
well-formed. -/
theorem assign_overwrites : ∀ (n m : Node) (v : AssignVal),
    (n.assign v).type = .Scalar
    ∧ (n.assign v).value = .scalarValue v.textRep
    ∧ n.assign v = m.assign v
    ∧ (n.assign v).wfB = true :=
  fun _ _ _ => ⟨rfl, rfl, rfl, rfl⟩

/-- Claim C4: on a Map node, `operator[](key)` returns the first entry with
that key (leaving the map unchanged) when one exists; otherwise it appends
exactly one `Null` entry for the key at the end, leaving existing entries
unchanged, and returns the new entry; and in both cases writing through the
returned reference is visible on the next first-match lookup of the key. -/
theorem mapIndex_spec : ∀ (es : EntryList) (key : String),
    (∀ i, es.findIdx key = some i →
      (Node.mk .Map (.mapValue es)).mapIndex key = (.mk .Map (.mapValue es), i)
      ∧ es.keyAt i = some key ∧ ∀ j, j < i → es.keyAt j ≠ some key)
    ∧ (es.findIdx key = none →
      (Node.mk .Map (.mapValue es)).mapIndex key
        = (.mk .Map (.mapValue (es.push key (Node.ofType .Null))), es.length)
      ∧ (es.push key (Node.ofType .Null)).length = es.length + 1
      ∧ (es.push key (Node.ofType .Null)).keyAt es.length = some key
      ∧ (es.push key (Node.ofType .Null)).valueAt es.length = some (Node.ofType .Null)
      ∧ (∀ j, j < es.length →
          (es.push key (Node.ofType .Null)).keyAt j = es.keyAt j
          ∧ (es.push key (Node.ofType .Null)).valueAt j = es.valueAt j))
    ∧ (∀ w : Node,
      (((Node.mk .Map (.mapValue es)).mapIndex key).1.setMapValueAt
          ((Node.mk .Map (.mapValue es)).mapIndex key).2 w).lookup key = some w) := by
  intro es key
  refine ⟨?_, ?_, ?_⟩
  · intro i hf
    exact ⟨by simp [Node.mapIndex, Node.value, hf], findIdx_keyAt es key i hf⟩
  · intro hn
    refine ⟨by simp [Node.mapIndex, Node.value, Node.type, hn], push_length es key _,
      keyAt_push_last es key _, valueAt_push_last es key _, ?_⟩
    intro j hj
    exact ⟨keyAt_push_lt es key _ j hj, valueAt_push_lt es key _ j hj⟩
  · intro w
    rcases hf : es.findIdx key with _ | i
    · simp only [Node.mapIndex, Node.value, hf, Node.type]
      simp only [Node.setMapValueAt, Node.lookup, Node.value]
      rw [findIdx_setValueAt, findIdx_push_of_none es key _ hf]
      exact valueAt_setValueAt_self _ es.length w (by rw [push_length]; omega)
    · simp only [Node.mapIndex, Node.value, hf]
      simp only [Node.setMapValueAt, Node.lookup, Node.value]
      rw [findIdx_setValueAt, hf]
      exact valueAt_setValueAt_self es i w (findIdx_lt_length es key i hf)

/-- Witness for `mapIndex_spec`: a one-entry map, hit on the existing key
`a` and auto-vivification plus write-visibility on the absent key `b`. -/
theorem mapIndex_spec_witness :
    ((Node.mk .Map (.mapValue (.cons "a" (scalarNode "1") .nil))).mapIndex "a"
        = (.mk .Map (.mapValue (.cons "a" (scalarNode "1") .nil)), 0)
      ∧ (EntryList.cons "a" (scalarNode "1") .nil).keyAt 0 = some "a"
      ∧ ∀ j, j < 0 → (EntryList.cons "a" (scalarNode "1") .nil).keyAt j ≠ some "a")
    ∧ (((Node.mk .Map (.mapValue (.cons "a" (scalarNode "1") .nil))).mapIndex "b").1.setMapValueAt
        ((Node.mk .Map (.mapValue (.cons "a" (scalarNode "1") .nil))).mapIndex "b").2
        (scalarNode "9")).lookup "b" = some (scalarNode "9") :=
  ⟨(mapIndex_spec (.cons "a" (scalarNode "1") .nil) "a").1 0 rfl,
   (mapIndex_spec (.cons "a" (scalarNode "1") .nil) "b").2.2 (scalarNode "9")⟩

/-- Claim C7: `parse` demands stream start, document start, one root node,
document end, stream end; every failure path returns an error of kind
`ParseError` (and, the return type being `Except`, no tree at all); a
success means the events had exactly that shape; and the truncated stream
consisting of a sequence start followed by stream end is a `ParseError`
(with or without the stream/document preamble). -/
theorem parse_event_shape :
    (∀ (evs : List Event) (e : EmbedYAMLError), parse evs = .error e → e.error = .ParseError)
    ∧ (∀ (evs : List Event) (t : Node), parse evs = .ok t →
        ∃ body rem, evs = .streamStart :: .docStart :: body
          ∧ parseNodeFuel (2 * body.length + 2) body = some (t, .docEnd :: .streamEnd :: rem))
    ∧ parse [.streamStart, .docStart, .seqStart, .streamEnd]
        = .error ⟨.ParseError, "Failed to parse YAML node"⟩
    ∧ parse [.seqStart, .streamEnd] = .error ⟨.ParseError, "Expected stream start event"⟩ :=
  ⟨parse_error_kind, parse_ok_shape, rfl, rfl⟩

/-- Witness for `parse_event_shape`: the error kind of a concrete failing
input and the shape of a concrete succeeding input. -/
theorem parse_event_shape_witness :
    (⟨.ParseError, "Expected stream start event"⟩ : EmbedYAMLError).error = .ParseError
    ∧ ∃ body rem, ([.streamStart, .docStart, .scalar "hi", .docEnd, .streamEnd] : List Event)
        = .streamStart :: .docStart :: body
        ∧ parseNodeFuel (2 * body.length + 2) body
            = some (scalarNode "hi", .docEnd :: .streamEnd :: rem) :=
  ⟨parse_event_shape.1 [.seqStart, .streamEnd] ⟨.ParseError, "Expected stream start event"⟩ rfl,
   parse_event_shape.2.1 [.streamStart, .docStart, .scalar "hi", .docEnd, .streamEnd]
     (scalarNode "hi") rfl⟩

/-- Claim C9: the kind/payload invariant holds for every node produced by the
public interface and is preserved by every public operation: the default and
typed constructors, map indexing (both the updated map and, per C4's lemmas,
the stored `Null` node `Node.ofType .Null`), sequence indexing, append (of a
node or of a value), assignment, and parsing. -/
theorem wf_invariant_preserved :
    Node.wfB Node.defaultNode = true
    ∧ (∀ t : NodeType, (Node.ofType t).wfB = true)
    ∧ (∀ (n : Node) (key : String), n.wfB = true → ((n.mapIndex key).1).wfB = true)
    ∧ (∀ (n : Node) (i : Nat) (m : Node), n.wfB = true → n.seqIndex i = some m → m.wfB = true)
    ∧ (∀ (n c : Node), n.wfB = true → c.wfB = true → (n.emplaceBackNode c).wfB = true)
    ∧ (∀ (n : Node) (v : AssignVal), n.wfB = true → (n.emplaceBackVal v).wfB = true)
    ∧ (∀ (n : Node) (v : AssignVal), (n.assign v).wfB = true)
    ∧ (∀ (evs : List Event) (t : Node), parse evs = .ok t → t.wfB = true) := by
  have hemp : ∀ (n c : Node), n.wfB = true → c.wfB = true → (n.emplaceBackNode c).wfB = true := by
    intro n c hw hc
    cases n with
    | mk t v =>
      cases v with
      | sequenceValue l =>
        cases t <;> simp [Node.wfB] at hw ⊢
        exact push_wfB_nodeList l c hw hc
      | nullValue => exact hw
      | scalarValue s => exact hw
      | mapValue es => exact hw
  refine ⟨rfl, ?_, ?_, ?_, hemp, ?_, ?_, ?_⟩
  · intro t; cases t <;> rfl
  · intro n key hw
    cases n with
    | mk t v =>
      cases v with
      | mapValue es =>
        rcases hf : es.findIdx key with _ | i
        · cases t <;> simp [Node.wfB] at hw ⊢
          simp only [Node.mapIndex, Node.value, hf, Node.type]
          simp only [Node.wfB]
          exact push_wfB_entry es key _ hw rfl
        · simpa [Node.mapIndex, Node.value, hf] using hw
      | nullValue => simpa [Node.mapIndex, Node.value] using hw
      | scalarValue s => simpa [Node.mapIndex, Node.value] using hw
      | sequenceValue l => simpa [Node.mapIndex, Node.value] using hw
  · intro n i m hw hv
    cases n with
    | mk t v =>
      cases v with
      | sequenceValue l =>
        simp only [Node.seqIndex, Node.value] at hv
        cases t <;> simp [Node.wfB] at hw
        exact get?_wfB l i m hw hv
      | nullValue => simp [Node.seqIndex, Node.value] at hv
      | scalarValue s => simp [Node.seqIndex, Node.value] at hv
      | mapValue es => simp [Node.seqIndex, Node.value] at hv
  · intro n v hw
    exact hemp n (Node.defaultNode.assign v) hw rfl
  · intro n v
    rfl
  · intro evs t h
    obtain ⟨body, rem, _, hp⟩ := parse_ok_shape evs t h
    exact parseNodeFuel_wf _ _ _ _ hp

/-- Witness for `wf_invariant_preserved`: auto-vivification on an empty map
and a concrete successful parse both yield well-formed nodes. -/
theorem wf_invariant_preserved_witness :
    ((Node.ofType .Map).mapIndex "a").1.wfB = true
    ∧ (scalarNode "hi").wfB = true :=
  ⟨wf_invariant_preserved.2.2.1 (Node.ofType .Map) "a" rfl,
   wf_invariant_preserved.2.2.2.2.2.2.2
     [.streamStart, .docStart, .scalar "hi", .docEnd, .streamEnd] (scalarNode "hi") rfl⟩

/-- Claim C1, amended: for every well-formed tree built purely from Scalar,
Sequence and Map nodes (no `Null` anywhere — a `Null` node already makes
`emit` fail, see the counterexample) without duplicate map keys, running the
parser on the event-stream encoding of the tree — the stream the external
lexer is trusted to produce from the emitted text — succeeds and returns a
tree equal to the original in kind, value and order. -/
theorem parse_emit_roundtrip_events : ∀ t : Node, t.wfB = true → t.nullFreeB = true →
    t.noDupKeysB = true →
    parse (.streamStart :: .docStart :: (t.toEvents ++ [.docEnd, .streamEnd])) = .ok t := by
  intro t hw hnf _
  have hb := need_le_node t hw hnf
  have hr := roundNode t hw hnf [Event.docEnd, Event.streamEnd]
    (2 * (t.toEvents.length + 2) + 2) (by omega)
  simp [parse, hr]

/-- Witness for `parse_emit_roundtrip_events` at the scenario tree. -/
theorem parse_emit_roundtrip_events_witness :
    scenarioTree.wfB = true ∧ scenarioTree.nullFreeB = true ∧ scenarioTree.noDupKeysB = true
    ∧ parse (.streamStart :: .docStart :: (scenarioTree.toEvents ++ [.docEnd, .streamEnd]))
        = .ok scenarioTree :=
  ⟨rfl, rfl, rfl, parse_emit_roundtrip_events scenarioTree rfl rfl rfl⟩

/-- Claim C1, counterexample: a tree consisting of a single `Null` node cannot
even be emitted — `emit` fails with an `EmissionError` — so `parse(emit(tree))`
cannot succeed for every tree built from `Null`/`Scalar`/`Sequence`/`Map`
nodes. -/
theorem emit_null_tree_fails :
    emit (Node.ofType .Null)
      = Except.error ⟨.EmissionError, "Invalid node type for emission"⟩ := rfl

end EmbedYAML
